import Mathlib

/-!
Verification of the rp2040badge display driver (src/main.rs).

The development shallowly embeds the parts of the program that the
properties below talk about: the linear-congruential random generator,
the triangle-wave primitive `wave`, the image model (fixed-capacity
buffers `ImageBuffer8k` / `ImageBuffer512` and the immutable
`LoadedImage`), and the transition effects as producers of ordered
lists of `(window, data)` writes sent to the display.

Machine integers are modelled as `Nat`/`Int` with explicit wrapping
(`% 2^32`, a two's-complement fold for `i16`) where the Rust code can
overflow; Rust `i32` division and remainder (truncation toward zero)
are `Int.tdiv`/`Int.tmod`.  Rust operations that can panic (slicing
past the end of an arena, mutating an immutable image) are modelled
with `Option` or an explicit outcome type.
-/

/-- Two's-complement fold of an integer into the `i16` range, modelling
Rust release-mode wrapping of `i16` arithmetic. -/
def wrapI16 (z : Int) : Int :=
  (z + 32768) % 65536 - 32768

/-- Two's-complement fold of an integer into the `i32` range, modelling
Rust release-mode wrapping of `i32` arithmetic. -/
def wrapI32 (z : Int) : Int :=
  (z + 2147483648) % 4294967296 - 2147483648

/-! ## Rng generator (struct `Random`, src/main.rs lines 62-78) -/

/-- The 32-bit LCG state.  `Random(u32)` in the source. -/
structure Rng where
  s : Nat
deriving DecidableEq

/-- `Random::new()` seeds with the fixed constant 12345. -/
def Rng.new : Rng := ⟨12345⟩

/-- `Random::get_u32`: `self.0 = self.0.wrapping_mul(1664525).wrapping_add(1013904223)`,
returning the new state. -/
def Rng.get_u32 (r : Rng) : Nat × Rng :=
  let s := (r.s * 1664525 + 1013904223) % 4294967296
  (s, ⟨s⟩)

/-- `Random::get_u16`: `((self.get_u32() / 23) & 0xFFFF) as u16`
(masking the low 16 bits is `% 65536`). -/
def Rng.get_u16 (r : Rng) : Nat × Rng :=
  let p := r.get_u32
  (p.1 / 23 % 65536, p.2)

/-- `Random::get_u8`: `((self.get_u32() / 23) & 0xFF) as u8`
(masking the low 8 bits is `% 256`). -/
def Rng.get_u8 (r : Rng) : Nat × Rng :=
  let p := r.get_u32
  (p.1 / 23 % 256, p.2)

/-- The stream of `get_u32` draws from a given generator state. -/
def randSeq (r : Rng) : Nat → List Nat
  | 0 => []
  | n + 1 => (r.get_u32).1 :: randSeq (r.get_u32).2 n

/-! ## Abstract image (the `MyImage` capability: width, height, byte buffer) -/

/-- An image as the effects see it: logical width and height and the
byte buffer returned by `buffer()` (2 bytes per pixel, row-major,
little-endian). -/
structure ImageM where
  w : Nat
  h : Nat
  buf : List Nat
deriving DecidableEq

/-- `MyImage::get_pixel_u16`: bytes at `offset = 2*(x + y*width)`,
combined as `a + b*256`.  Out-of-range access (a panic in Rust) is
modelled with the default 0; every access below is in range. -/
def getPixelU16 (img : ImageM) (x y : Nat) : Nat :=
  let offset := 2 * (x + y * img.w)
  img.buf.getD offset 0 + img.buf.getD (offset + 1) 0 * 256

/-- A Rust subslice `l[off .. off+len]`.  (Rust panics when the range
leaves the buffer; all slices taken below are in range for the images
the program uses, so the clamping `take` is never exercised.) -/
def sliceL (l : List Nat) (off len : Nat) : List Nat :=
  (l.drop off).take len

/-! ## Display writes

Each effect is modelled as the ordered list of `(window, data)` pairs
it sends: a `set_windows(x_start, y_start, x_end, y_end)` call followed
by a `send_data` payload. -/

/-- The rectangle programmed by `Lcd::set_windows` (exclusive end
coordinates, as the callers pass them). -/
structure Window where
  xs : Nat
  ys : Nat
  xe : Nat
  ye : Nat
deriving DecidableEq

/-- One windowed data transfer. -/
structure Write where
  win : Window
  data : List Nat
deriving DecidableEq

/-- The device fills the window row-major with the streamed bytes; a
framebuffer is a function from coordinates to the 16-bit pixel value. -/
def applyWrite (fb : Nat → Nat → Nat) (wr : Write) : Nat → Nat → Nat :=
  fun x y =>
    if wr.win.xs ≤ x ∧ x < wr.win.xe ∧ wr.win.ys ≤ y ∧ y < wr.win.ye then
      let idx := 2 * ((y - wr.win.ys) * (wr.win.xe - wr.win.xs) + (x - wr.win.xs))
      wr.data.getD idx 0 + wr.data.getD (idx + 1) 0 * 256
    else fb x y

/-- Apply a list of writes in order. -/
def applyWrites (fb : Nat → Nat → Nat) (ws : List Write) : Nat → Nat → Nat :=
  ws.foldl applyWrite fb

/-- `Lcd::full_image`: one window over the whole 240x240 surface,
streaming the source buffer unmodified. -/
def fullImageWrite (img : ImageM) : Write :=
  ⟨⟨0, 0, 240, 240⟩, img.buf⟩

/-- The write list produced by `Lcd::full_image`. -/
def full_image (img : ImageM) : List Write :=
  [fullImageWrite img]

/-! ## Noise-reveal effects (src/main.rs lines 321-355 and 542-570) -/

/-- One iteration of the `full_image_noisy1` loop: a random 1x1 tile. -/
def noisy1Step (img : ImageM) (r : Rng) : Write × Rng :=
  let p1 := r.get_u8
  let x := p1.1 % 240
  let p2 := p1.2.get_u8
  let y := p2.1 % 240
  let offset := 2 * (y * 240 + x)
  (⟨⟨x, y, x + 1, y + 1⟩, sliceL img.buf offset 2⟩, p2.2)

/-- The `for i in 0..n` loop of `full_image_noisy1`. -/
def noisy1Loop (img : ImageM) : Nat → Rng → List Write × Rng
  | 0, r => ([], r)
  | n + 1, r =>
    let st := noisy1Step img r
    let rest := noisy1Loop img n st.2
    (st.1 :: rest.1, rest.2)

/-- `Lcd::full_image_noisy1`: 400000 random single-pixel tiles, then a
terminal `full_image`. -/
def full_image_noisy1 (img : ImageM) (r : Rng) : List Write × Rng :=
  let l := noisy1Loop img 400000 r
  (l.1 ++ full_image img, l.2)

/-- One iteration of the `full_image_noisy20` loop: a random 20x1 tile,
with `x = get_u8 % (LCD_WIDTH - together)`. -/
def noisy20Step (img : ImageM) (r : Rng) : Write × Rng :=
  let p1 := r.get_u8
  let x := p1.1 % 220
  let p2 := p1.2.get_u8
  let y := p2.1 % 240
  let offset := 2 * (y * 240 + x)
  (⟨⟨x, y, x + 20, y + 1⟩, sliceL img.buf offset 40⟩, p2.2)

/-- The `for i in 0..n` loop of `full_image_noisy20`. -/
def noisy20Loop (img : ImageM) : Nat → Rng → List Write × Rng
  | 0, r => ([], r)
  | n + 1, r =>
    let st := noisy20Step img r
    let rest := noisy20Loop img n st.2
    (st.1 :: rest.1, rest.2)

/-- `Lcd::full_image_noisy20`: 10000 random 20x1 tiles, then a terminal
`full_image`. -/
def full_image_noisy20 (img : ImageM) (r : Rng) : List Write × Rng :=
  let l := noisy20Loop img 10000 r
  (l.1 ++ full_image img, l.2)

/-- The closure `f(d)` of `full_image_noisy` (`together = 11`):
`x = get_u8 % (LCD_WIDTH - together - d)`, `y = get_u8 % (LCD_HEIGHT - d)`,
`ox, oy = get_u8 % d`, window `(x+ox, y+oy, x+ox+11, y+oy+1)`, data from
`offset = 2*(y*LCD_WIDTH + x)`. -/
def noisyStep (img : ImageM) (d : Nat) (r : Rng) : Write × Rng :=
  let p1 := r.get_u8
  let x := p1.1 % (229 - d)
  let p2 := p1.2.get_u8
  let y := p2.1 % (240 - d)
  let p3 := p2.2.get_u8
  let ox := p3.1 % d
  let p4 := p3.2.get_u8
  let oy := p4.1 % d
  let offset := 2 * (y * 240 + x)
  (⟨⟨x + ox, y + oy, x + ox + 11, y + oy + 1⟩, sliceL img.buf offset 22⟩, p4.2)

/-- One of the three `for` loops of `full_image_noisy`. -/
def noisyLoop (img : ImageM) (d : Nat) : Nat → Rng → List Write × Rng
  | 0, r => ([], r)
  | n + 1, r =>
    let st := noisyStep img d r
    let rest := noisyLoop img d n st.2
    (st.1 :: rest.1, rest.2)

/-- `Lcd::full_image_noisy`: 20000 iterations each with `d = 10`, `d = 5`,
`d = 2`, then a terminal `full_image`. -/
def full_image_noisy (img : ImageM) (r : Rng) : List Write × Rng :=
  let a := noisyLoop img 10 20000 r
  let b := noisyLoop img 5 20000 a.2
  let c := noisyLoop img 2 20000 b.2
  (a.1 ++ (b.1 ++ (c.1 ++ full_image img)), c.2)

/-! ## Horizontal shift (src/main.rs lines 630-649) and its call sites -/

/-- The two per-row windowed writes of `full_image_horizontal_shift` for
row `i`: segment `[offset, 240)` into window `(0, i, 240-offset, i+1)`,
then segment `[0, offset)` into window `(240-offset, i, 240, i+1)`. -/
def hshiftRowWrites (img : ImageM) (offset i : Nat) : List Write :=
  [⟨⟨0, i, 240 - offset, i + 1⟩,
      sliceL img.buf (2 * (i * 240 + offset)) (2 * (240 - offset))⟩,
   ⟨⟨240 - offset, i, 240, i + 1⟩,
      sliceL img.buf (2 * (i * 240)) (2 * offset)⟩]

/-- `Lcd::full_image_horizontal_shift`: the two writes for every row. -/
def full_image_horizontal_shift (img : ImageM) (offset : Nat) : List Write :=
  (List.range 240).flatMap (hshiftRowWrites img offset)

/-- The offsets the program actually passes to
`full_image_horizontal_shift`: `240 - i*4` for `i in 0..60`
(src/main.rs lines 1050-1052). -/
def mainShiftOffsets : List Nat :=
  (List.range 60).map (fun i => 240 - i * 4)

/-! ## Triangle wave and the wave-distortion frame (lines 82-86, 403-431) -/

/-- `wave(x, period, amplitude)` exactly as in the source, with Rust
`%` = `Int.tmod` and Rust `/` = `Int.tdiv`. -/
def wave (x period amplitude : Int) : Int :=
  let x1 := (if x > 0 then x else period - x).tmod (2 * period)
  let q := if x1 < period then (x1, (1 : Int)) else (x1 - period, (-1 : Int))
  (((q.2 * q.1 * (period - q.1) * amplitude).tdiv period).tdiv period).tdiv 4

/-- The numerator of `wave` before the three divisions. -/
def waveNum (x period amplitude : Int) : Int :=
  let x1 := (if x > 0 then x else period - x).tmod (2 * period)
  if x1 < period then x1 * (period - x1) * amplitude
  else -((x1 - period) * (period - (x1 - period)) * amplitude)

/-- `wave` with the source's `i32` arithmetic taken literally in
release mode: every addition, subtraction and multiplication wraps via
`wrapI32` (`%` and `/` are `i32` rem and truncating division, which
never wrap for the divisors used here; in debug builds each wrap below
would instead be an overflow panic). -/
def waveI32 (x period amplitude : Int) : Int :=
  let t := if x > 0 then x else wrapI32 (period - x)
  let x1 := t.tmod (wrapI32 (2 * period))
  let q := if x1 < period then (x1, (1 : Int)) else (wrapI32 (x1 - period), (-1 : Int))
  (((wrapI32 (wrapI32 (wrapI32 (q.2 * q.1) * wrapI32 (period - q.1)) * amplitude)).tdiv
      period).tdiv period).tdiv 4

/-- The two offsets `w1`, `w2` computed by `full_image_wave` at progress
`t` for destination pixel `(x, y)` (`together = 150`, `tt = 150 - t`). -/
def waveOffsets (t x y : Int) : Int × Int :=
  let tt := 150 - t
  let r2 := ((x - 120) * (x - 120) + (y - 120) * (y - 120)).tdiv (10 + t)
  (wave (x + 5 * t + r2) (30 + t.tdiv 2) tt,
   wave (x + r2.tdiv 2) (20 + t) (2 * tt))

/-- The pixel value `full_image_wave` streams at progress `t` for
destination `(x, y)`: the source sampled at `(x+w1, y+w2)` when in
bounds, else 0. -/
def waveFramePixel (img : ImageM) (t x y : Int) : Nat :=
  let w1 := (waveOffsets t x y).1
  let w2 := (waveOffsets t x y).2
  let xx := x + w1
  let yy := y + w2
  if 0 ≤ xx ∧ xx < 240 ∧ 0 ≤ yy ∧ yy < 240 then
    getPixelU16 img xx.toNat yy.toNat
  else 0

/-! ## `ImageBuffer8k` (src/main.rs lines 683-707, 793-806) -/

/-- The 8192-byte-arena mutable image buffer. -/
structure ImageBuffer8k where
  w : Nat
  h : Nat
  arena : List Nat
deriving DecidableEq

/-- `ImageBuffer8k::new`: clamps `h` to `(8192 / w) as u8` when
`(w as i16) * (h as i16) >= 8192` (the product wraps in `i16`), and
zero-fills the arena. -/
def ImageBuffer8k.new (w h : Nat) : ImageBuffer8k :=
  ⟨w,
   if wrapI16 ((w : Int) * (h : Int)) ≥ 8192 then 8192 / w % 256 else h,
   List.replicate 8192 0⟩

/-- `<ImageBuffer8k as MyImage>::buffer`: `&self.buffer[..w*h*2]`.
Rust panics when `w*h*2` exceeds the 8192-byte arena; the panic is
`none`. -/
def ImageBuffer8k.buffer (img : ImageBuffer8k) : Option (List Nat) :=
  if img.w * img.h * 2 ≤ 8192 then some (img.arena.take (img.w * img.h * 2))
  else none

/-- `ImageBuffer8k::swap_xy` swaps the logical dimensions. -/
def ImageBuffer8k.swap_xy (img : ImageBuffer8k) : ImageBuffer8k :=
  ⟨img.h, img.w, img.arena⟩

/-! ## `ImageBuffer512` and `mirror_gradient` (src/main.rs lines 709-742) -/

/-- The 512-byte-arena image buffer; the arena is modelled as a
function from byte index to byte value. -/
structure ImageBuffer512 where
  w : Nat
  h : Nat
  arena : Nat → Nat

/-- `ImageBuffer512::new`: clamps `h` to `255 / w` when
`(w as i16) * (h as i16) >= 256`, and zero-fills the arena. -/
def ImageBuffer512.new (w h : Nat) : ImageBuffer512 :=
  ⟨w, if wrapI16 ((w : Int) * (h : Int)) ≥ 256 then 255 / w else h, fun _ => 0⟩

/-- The `for i in 0..count` loop of `mirror_gradient` after `n`
iterations: iteration `i` writes the source bytes `2*i`, `2*i+1` to
destination positions `2*(count-i)`, `2*(count-i)+1`. -/
def mgLoop (src : Nat → Nat) (count : Nat) (g : Nat → Nat) : Nat → Nat → Nat
  | 0 => g
  | n + 1 => fun j =>
    if j = 2 * (count - n) then src (2 * n)
    else if j = 2 * (count - n) + 1 then src (2 * n + 1)
    else mgLoop src count g n j

/-- `ImageBuffer512::mirror_gradient`: a fresh zeroed buffer via `new`,
then the reversal loop over `count = w*h` pixels. -/
def ImageBuffer512.mirror_gradient (src : ImageBuffer512) : ImageBuffer512 :=
  let g := ImageBuffer512.new src.w src.h
  let count := src.w * src.h
  ⟨g.w, g.h, mgLoop src.arena count g.arena count⟩

/-! ## `LoadedImage` mutation (src/main.rs lines 823-836) -/

/-- Outcome of requesting mutable access to an image: success with the
buffer, a Rust `panic!` (an unconditional abort under `panic_halt`), or
a hypothetical checked invalid-operation error (the representation the
specification proposes; the source never produces it). -/
inductive MutAccess where
  | ok (bytes : List Nat)
  | panicked (msg : String)
  | invalidOperation
deriving DecidableEq

/-- The immutable asset image: a static blob. -/
structure LoadedImage where
  blob : List Nat
deriving DecidableEq

/-- `<LoadedImage as MyImage>::buffer_mut`:
`panic!("No mutation for loaded image")`. -/
def LoadedImage.buffer_mut (_ : LoadedImage) : MutAccess :=
  .panicked "No mutation for loaded image"

/-- `MyImage::set_pixel_b` on a `LoadedImage`: the default trait method
calls `buffer_mut` first, so the panic happens before any byte is
written. -/
def LoadedImage.set_pixel_b (img : LoadedImage) (_x _y : Nat) (_c : Nat × Nat) : MutAccess :=
  img.buffer_mut

/-! ## Concrete instances used by witnesses -/

/-- A 240x240 image with an empty byte list (window geometry and the
blit argument do not depend on the bytes). -/
def imgEx : ImageM := ⟨240, 240, []⟩

/-- A concrete 2x2 `ImageBuffer512` source. -/
def srcEx : ImageBuffer512 := ⟨2, 2, fun j => j + 10⟩

/-! ## Claim theorems -/

/-- Claim C1: the spec invariant `buffer().len() == 2*width*height`
with `width*height*2` never exceeding the arena fails on the code:
`ImageBuffer8k::new(100, 100)` clamps `h` only by the pixel count
(`w*h >= 8192`) to `8192/w = 81`, leaving `w*h*2 = 16200 > 8192`, so
`buffer()` (a slice `[..16200]` of the 8192-byte arena) panics. -/
theorem imageBuffer8k_invariant_violation :
    (ImageBuffer8k.new 100 100).h = 81 ∧
    (ImageBuffer8k.new 100 100).w * (ImageBuffer8k.new 100 100).h * 2 = 16200 ∧
    8192 < (ImageBuffer8k.new 100 100).w * (ImageBuffer8k.new 100 100).h * 2 ∧
    (ImageBuffer8k.new 100 100).buffer = none := by
  refine ⟨by decide, by decide, by decide, ?_⟩
  decide

/-- Claim C2: the spec says `ImageBuffer8k::new(100, 100)` clamps the
height to `8192/100/2 = 40`; the code computes `8192/100 = 81`
(the 2-bytes-per-pixel factor is missing from the clamp). -/
theorem imageBuffer8k_new_100_100_height :
    (ImageBuffer8k.new 100 100).h = 81 ∧ (ImageBuffer8k.new 100 100).h ≠ 40 := by
  exact ⟨rfl, by decide⟩

/-- Claim C6: one `get_u32` call sets the state to
`s*1664525 + 1013904223 mod 2^32` and returns that new state, and two
generators with equal state produce identical output sequences of any
length. -/
theorem random_lcg_step (r1 r2 : Rng) (n : Nat) (h : r1.s = r2.s) :
    (r1.get_u32).2.s = (r1.s * 1664525 + 1013904223) % 2 ^ 32 ∧
    (r1.get_u32).1 = (r1.get_u32).2.s ∧
    randSeq r1 n = randSeq r2 n := by
  have hr : r1 = r2 := by
    cases r1; cases r2; simpa using h
  refine ⟨by norm_num [Rng.get_u32], rfl, by rw [hr]⟩

/-- Witness for C6 at the program seed 12345 and length 3. -/
theorem random_lcg_step_witness :
    (Rng.new.get_u32).2.s = (Rng.new.s * 1664525 + 1013904223) % 2 ^ 32 ∧
    (Rng.new.get_u32).1 = (Rng.new.get_u32).2.s ∧
    randSeq Rng.new 3 = randSeq Rng.new 3 :=
  random_lcg_step Rng.new Rng.new 3 rfl

/-- Claim C7 counterexample: mutating a `LoadedImage` does not signal a
checked invalid-operation error; it is the unconditional
`panic!("No mutation for loaded image")`. -/
theorem loadedImage_mutation_not_checked :
    LoadedImage.buffer_mut ⟨[]⟩ = .panicked "No mutation for loaded image" ∧
    LoadedImage.buffer_mut ⟨[]⟩ ≠ .invalidOperation := by
  exact ⟨rfl, by decide⟩

/-- Claim C7 (amended): obtaining the mutable buffer of a `LoadedImage`
— hence any pixel write on it — panics unconditionally with
"No mutation for loaded image" and never silently succeeds. -/
theorem loadedImage_mutation_panics (img : LoadedImage) (x y : Nat) (c : Nat × Nat) :
    img.buffer_mut = .panicked "No mutation for loaded image" ∧
    img.set_pixel_b x y c = .panicked "No mutation for loaded image" ∧
    (∀ bytes, img.buffer_mut ≠ .ok bytes) :=
  ⟨rfl, rfl, fun _ h => by cases h⟩

/-! ## Window bounds of the noise-reveal effects (claim C10) -/

/-- Every window of the `full_image_noisy1` loop is a 1x1 tile inside
the 240x240 screen. -/
theorem noisy1Loop_windows (img : ImageM) :
    ∀ (n : Nat) (r : Rng) (w : Write), w ∈ (noisy1Loop img n r).1 →
      w.win.xs < w.win.xe ∧ w.win.xe ≤ 240 ∧ w.win.ys < w.win.ye ∧ w.win.ye ≤ 240 := by
  intro n
  induction n with
  | zero => intro r w hw; simp [noisy1Loop] at hw
  | succ n ih =>
    intro r w hw
    simp only [noisy1Loop, List.mem_cons] at hw
    rcases hw with h | h
    · subst h
      have h1 : (r.get_u8).1 % 240 < 240 := Nat.mod_lt _ (by norm_num)
      have h2 : ((r.get_u8).2.get_u8).1 % 240 < 240 := Nat.mod_lt _ (by norm_num)
      simp only [noisy1Step]
      omega
    · exact ih _ _ h

/-- Every window of the `full_image_noisy20` loop is a 20x1 tile inside
the 240x240 screen. -/
theorem noisy20Loop_windows (img : ImageM) :
    ∀ (n : Nat) (r : Rng) (w : Write), w ∈ (noisy20Loop img n r).1 →
      w.win.xs < w.win.xe ∧ w.win.xe ≤ 240 ∧ w.win.ys < w.win.ye ∧ w.win.ye ≤ 240 := by
  intro n
  induction n with
  | zero => intro r w hw; simp [noisy20Loop] at hw
  | succ n ih =>
    intro r w hw
    simp only [noisy20Loop, List.mem_cons] at hw
    rcases hw with h | h
    · subst h
      have h1 : (r.get_u8).1 % 220 < 220 := Nat.mod_lt _ (by norm_num)
      have h2 : ((r.get_u8).2.get_u8).1 % 240 < 240 := Nat.mod_lt _ (by norm_num)
      simp only [noisy20Step]
      omega
    · exact ih _ _ h

/-- Every window of a `full_image_noisy` loop with tile jitter `d`
(`0 < d < 229`) is an 11x1 tile inside the 240x240 screen. -/
theorem noisyLoop_windows (img : ImageM) (d : Nat) (hd0 : 0 < d) (hd : d < 229) :
    ∀ (n : Nat) (r : Rng) (w : Write), w ∈ (noisyLoop img d n r).1 →
      w.win.xs < w.win.xe ∧ w.win.xe ≤ 240 ∧ w.win.ys < w.win.ye ∧ w.win.ye ≤ 240 := by
  intro n
  induction n with
  | zero => intro r w hw; simp [noisyLoop] at hw
  | succ n ih =>
    intro r w hw
    simp only [noisyLoop, List.mem_cons] at hw
    rcases hw with h | h
    · subst h
      have h1 : (r.get_u8).1 % (229 - d) < 229 - d := Nat.mod_lt _ (by omega)
      have h2 : ((r.get_u8).2.get_u8).1 % (240 - d) < 240 - d := Nat.mod_lt _ (by omega)
      have h3 : (((r.get_u8).2.get_u8).2.get_u8).1 % d < d := Nat.mod_lt _ hd0
      have h4 : ((((r.get_u8).2.get_u8).2.get_u8).2.get_u8).1 % d < d := Nat.mod_lt _ hd0
      simp only [noisyStep]
      omega
    · exact ih _ _ h

/-- Claim C10: for every generator state, every window issued by
`full_image_noisy1`, `full_image_noisy20` and `full_image_noisy`
(the random tiles and the terminal full blit alike) satisfies
`x_start < x_end ≤ 240` and `y_start < y_end ≤ 240`; in particular the
end coordinates handed to `set_windows` are never zero. -/
theorem noisy_windows_bounded (img : ImageM) (r : Rng) :
    (∀ w ∈ (full_image_noisy1 img r).1,
      w.win.xs < w.win.xe ∧ w.win.xe ≤ 240 ∧ w.win.ys < w.win.ye ∧ w.win.ye ≤ 240) ∧
    (∀ w ∈ (full_image_noisy20 img r).1,
      w.win.xs < w.win.xe ∧ w.win.xe ≤ 240 ∧ w.win.ys < w.win.ye ∧ w.win.ye ≤ 240) ∧
    (∀ w ∈ (full_image_noisy img r).1,
      w.win.xs < w.win.xe ∧ w.win.xe ≤ 240 ∧ w.win.ys < w.win.ye ∧ w.win.ye ≤ 240) := by
  have hfull : ∀ w : Write, w = fullImageWrite img →
      w.win.xs < w.win.xe ∧ w.win.xe ≤ 240 ∧ w.win.ys < w.win.ye ∧ w.win.ye ≤ 240 := by
    intro w hw; subst hw; simp [fullImageWrite]
  refine ⟨?_, ?_, ?_⟩
  · intro w hw
    simp only [full_image_noisy1, full_image, List.mem_append, List.mem_singleton] at hw
    rcases hw with h | h
    · exact noisy1Loop_windows img 400000 r w h
    · exact hfull w h
  · intro w hw
    simp only [full_image_noisy20, full_image, List.mem_append, List.mem_singleton] at hw
    rcases hw with h | h
    · exact noisy20Loop_windows img 10000 r w h
    · exact hfull w h
  · intro w hw
    simp only [full_image_noisy, full_image, List.mem_append, List.mem_singleton] at hw
    rcases hw with h | h | h | h
    · exact noisyLoop_windows img 10 (by norm_num) (by norm_num) 20000 r w h
    · exact noisyLoop_windows img 5 (by norm_num) (by norm_num) 20000 _ w h
    · exact noisyLoop_windows img 2 (by norm_num) (by norm_num) 20000 _ w h
    · exact hfull w h

/-- Witness for C10 at the terminal full-blit write. -/
theorem noisy_windows_bounded_witness :
    (fullImageWrite imgEx).win.xs < (fullImageWrite imgEx).win.xe ∧
    (fullImageWrite imgEx).win.xe ≤ 240 ∧
    (fullImageWrite imgEx).win.ys < (fullImageWrite imgEx).win.ye ∧
    (fullImageWrite imgEx).win.ye ≤ 240 :=
  (noisy_windows_bounded imgEx Rng.new).1 (fullImageWrite imgEx)
    (by simp [full_image_noisy1, full_image])

/-! ## Terminal full blit of the noise-reveal effects (claim C3) -/

/-- `foldl` distribution of `applyWrites` over append. -/
theorem applyWrites_append (fb : Nat → Nat → Nat) (l1 l2 : List Write) :
    applyWrites fb (l1 ++ l2) = applyWrites (applyWrites fb l1) l2 := by
  simp [applyWrites, List.foldl_append]

/-- A full blit overwrites every on-screen pixel with the source pixel. -/
theorem applyWrite_fullImage (img : ImageM) (fb : Nat → Nat → Nat) (x y : Nat)
    (hw : img.w = 240) (hx : x < 240) (hy : y < 240) :
    applyWrite fb (fullImageWrite img) x y = getPixelU16 img x y := by
  unfold applyWrite fullImageWrite getPixelU16
  simp only
  rw [if_pos ⟨Nat.zero_le _, hx, Nat.zero_le _, hy⟩]
  have he : 2 * ((y - 0) * (240 - 0) + (x - 0)) = 2 * (x + y * img.w) := by
    rw [hw]; omega
  rw [he]

/-- Claim C3: for each noise-reveal variant on a 240x240 source and for
every generator state, the write list ends with the full blit of the
source, and applying the writes to any starting framebuffer leaves
every on-screen pixel equal to the source pixel. -/
theorem noisy_final_equals_source (img : ImageM) (r : Rng) (fb : Nat → Nat → Nat)
    (x y : Nat) (hw : img.w = 240) (_hh : img.h = 240) (hx : x < 240) (hy : y < 240) :
    ((full_image_noisy1 img r).1.getLast? = some (fullImageWrite img) ∧
      applyWrites fb (full_image_noisy1 img r).1 x y = getPixelU16 img x y) ∧
    ((full_image_noisy20 img r).1.getLast? = some (fullImageWrite img) ∧
      applyWrites fb (full_image_noisy20 img r).1 x y = getPixelU16 img x y) ∧
    ((full_image_noisy img r).1.getLast? = some (fullImageWrite img) ∧
      applyWrites fb (full_image_noisy img r).1 x y = getPixelU16 img x y) := by
  have happ : ∀ (fb0 : Nat → Nat → Nat) (l : List Write),
      applyWrites fb0 (l ++ [fullImageWrite img]) x y = getPixelU16 img x y := by
    intro fb0 l
    rw [applyWrites_append]
    simpa [applyWrites] using applyWrite_fullImage img (applyWrites fb0 l) x y hw hx hy
  refine ⟨⟨?_, ?_⟩, ⟨?_, ?_⟩, ⟨?_, ?_⟩⟩
  · exact List.getLast?_concat _
  · exact happ fb _
  · exact List.getLast?_concat _
  · exact happ fb _
  · show ((noisyLoop img 10 20000 r).1 ++ _).getLast? = _
    rw [show (noisyLoop img 10 20000 r).1 ++
        ((noisyLoop img 5 20000 (noisyLoop img 10 20000 r).2).1 ++
          ((noisyLoop img 2 20000 (noisyLoop img 5 20000 (noisyLoop img 10 20000 r).2).2).1 ++
            full_image img)) =
        ((noisyLoop img 10 20000 r).1 ++
          (noisyLoop img 5 20000 (noisyLoop img 10 20000 r).2).1 ++
          (noisyLoop img 2 20000 (noisyLoop img 5 20000 (noisyLoop img 10 20000 r).2).2).1) ++
          [fullImageWrite img] by simp [full_image, List.append_assoc]]
    exact List.getLast?_concat _
  · show applyWrites fb ((noisyLoop img 10 20000 r).1 ++ _) x y = _
    rw [show (noisyLoop img 10 20000 r).1 ++
        ((noisyLoop img 5 20000 (noisyLoop img 10 20000 r).2).1 ++
          ((noisyLoop img 2 20000 (noisyLoop img 5 20000 (noisyLoop img 10 20000 r).2).2).1 ++
            full_image img)) =
        ((noisyLoop img 10 20000 r).1 ++
          (noisyLoop img 5 20000 (noisyLoop img 10 20000 r).2).1 ++
          (noisyLoop img 2 20000 (noisyLoop img 5 20000 (noisyLoop img 10 20000 r).2).2).1) ++
          [fullImageWrite img] by simp [full_image, List.append_assoc]]
    exact happ fb _

/-- Witness for C3 on a concrete 240x240 image at pixel (5, 7). -/
theorem noisy_final_equals_source_witness :
    ((full_image_noisy1 imgEx Rng.new).1.getLast? = some (fullImageWrite imgEx) ∧
      applyWrites (fun _ _ => 0) (full_image_noisy1 imgEx Rng.new).1 5 7 =
        getPixelU16 imgEx 5 7) ∧
    ((full_image_noisy20 imgEx Rng.new).1.getLast? = some (fullImageWrite imgEx) ∧
      applyWrites (fun _ _ => 0) (full_image_noisy20 imgEx Rng.new).1 5 7 =
        getPixelU16 imgEx 5 7) ∧
    ((full_image_noisy imgEx Rng.new).1.getLast? = some (fullImageWrite imgEx) ∧
      applyWrites (fun _ _ => 0) (full_image_noisy imgEx Rng.new).1 5 7 =
        getPixelU16 imgEx 5 7) :=
  noisy_final_equals_source imgEx Rng.new (fun _ _ => 0) 5 7 rfl rfl
    (by norm_num) (by norm_num)

/-! ## Final frame of the wave distortion (claim C4) -/

/-- With amplitude 0 the triangle wave is identically zero. -/
theorem wave_amplitude_zero (x p : Int) : wave x p 0 = 0 := by
  unfold wave
  simp [Int.zero_tdiv]

/-- Claim C4: at the final progress value `t = 150` of `full_image_wave`
both computed offsets `w1` and `w2` are exactly zero for every pixel of
the 240x240 screen, so the streamed pixel equals the unmodified source
pixel — the last frame is the plain full blit of the source. -/
theorem wave_final_frame (img : ImageM) (x y : Int)
    (hx0 : 0 ≤ x) (hx : x < 240) (hy0 : 0 ≤ y) (hy : y < 240) :
    (waveOffsets 150 x y).1 = 0 ∧ (waveOffsets 150 x y).2 = 0 ∧
    waveFramePixel img 150 x y = getPixelU16 img x.toNat y.toNat := by
  have h1 : (waveOffsets 150 x y).1 = 0 := by
    simp [waveOffsets, wave_amplitude_zero]
  have h2 : (waveOffsets 150 x y).2 = 0 := by
    simp [waveOffsets, wave_amplitude_zero]
  refine ⟨h1, h2, ?_⟩
  unfold waveFramePixel
  rw [h1, h2]
  simp only [add_zero]
  rw [if_pos ⟨hx0, hx, hy0, hy⟩]

/-- Witness for C4 at pixel (3, 5). -/
theorem wave_final_frame_witness :
    (waveOffsets 150 3 5).1 = 0 ∧ (waveOffsets 150 3 5).2 = 0 ∧
    waveFramePixel imgEx 150 3 5 = getPixelU16 imgEx (Int.toNat 3) (Int.toNat 5) :=
  wave_final_frame imgEx 3 5 (by norm_num) (by norm_num) (by norm_num) (by norm_num)

/-! ## Horizontal-shift window ends (claim C5) -/

/-- Claim C5 counterexample: the program does call `set_windows` with
`x_end = 0`: the main loop passes `offset = 240 - 0*4 = 240` to
`full_image_horizontal_shift` on its first iteration, and the first
per-row window is then `(0, i, 240 - 240, i + 1)`, i.e. `x_end = 0`
(whose `x_end - 1` underflows in `set_windows`). -/
theorem hshift_window_end_zero :
    240 ∈ mainShiftOffsets ∧
    ∃ w ∈ full_image_horizontal_shift imgEx 240, w.win.xe = 0 := by
  constructor
  · decide
  · decide

/-- Claim C5 (amended): for every offset the program passes to
`full_image_horizontal_shift` except the first one (`offset = 240`,
where the first per-row window has `x_end = 0`), both per-row
`set_windows` calls receive nonzero end coordinates. -/
theorem hshift_nonzero_window_ends (img : ImageM) (o : Nat)
    (ho : o ∈ mainShiftOffsets) (hno : o ≠ 240) :
    ∀ w ∈ full_image_horizontal_shift img o, w.win.xe ≠ 0 ∧ w.win.ye ≠ 0 := by
  intro w hw
  simp only [mainShiftOffsets, List.mem_map, List.mem_range] at ho
  obtain ⟨i, hi, hoi⟩ := ho
  have hole : o ≤ 236 := by omega
  simp only [full_image_horizontal_shift, List.mem_flatMap, List.mem_range] at hw
  obtain ⟨row, _hrow, hwrow⟩ := hw
  simp only [hshiftRowWrites, List.mem_cons, List.mem_singleton] at hwrow
  rcases hwrow with h | h | h
  · subst h
    constructor
    · simp
      omega
    · simp
  · subst h
    constructor
    · simp
    · simp
  · simp at h

/-- Witness for the amended C5 at `offset = 236` (the second offset the
program passes), first per-row write of row 0. -/
theorem hshift_nonzero_window_ends_witness :
    (⟨⟨0, 0, 4, 1⟩, []⟩ : Write).win.xe ≠ 0 ∧ (⟨⟨0, 0, 4, 1⟩, []⟩ : Write).win.ye ≠ 0 :=
  hshift_nonzero_window_ends imgEx 236 (by decide) (by decide)
    ⟨⟨0, 0, 4, 1⟩, []⟩ (by decide)

/-! ## Mirror-gradient indexing (claim C9) -/

/-- After iterations `0, ..., n-1` of the `mirror_gradient` loop
(`n ≤ count`), destination bytes `2*(count-i)` and `2*(count-i)+1` hold
the bytes of source pixel `i`, for every `i < n`: later iterations
write strictly lower positions and never overwrite them. -/
theorem mgLoop_get (src g0 : Nat → Nat) (count : Nat) :
    ∀ n, n ≤ count → ∀ i, i < n →
      mgLoop src count g0 n (2 * (count - i)) = src (2 * i) ∧
      mgLoop src count g0 n (2 * (count - i) + 1) = src (2 * i + 1) := by
  intro n
  induction n with
  | zero => intro _ i hi; omega
  | succ n ih =>
    intro hn i hi
    by_cases hin : i = n
    · subst hin
      constructor
      · simp [mgLoop]
      · simp [mgLoop]
    · have h1 : 2 * (count - i) ≠ 2 * (count - n) := by omega
      have h2 : 2 * (count - i) ≠ 2 * (count - n) + 1 := by omega
      have h3 : 2 * (count - i) + 1 ≠ 2 * (count - n) := by omega
      have h4 : 2 * (count - i) + 1 ≠ 2 * (count - n) + 1 := by omega
      have prev := ih (by omega) i (by omega)
      constructor
      · simp only [mgLoop]
        rw [if_neg h1, if_neg h2]
        exact prev.1
      · simp only [mgLoop]
        rw [if_neg h3, if_neg h4]
        exact prev.2

/-- The `mirror_gradient` loop never writes destination bytes 0 and 1
(destination pixel 0): every write lands at position `2*(count-i) ≥ 2`. -/
theorem mgLoop_low (src g0 : Nat → Nat) (count : Nat) :
    ∀ n, n ≤ count →
      mgLoop src count g0 n 0 = g0 0 ∧ mgLoop src count g0 n 1 = g0 1 := by
  intro n
  induction n with
  | zero => exact fun _ => ⟨rfl, rfl⟩
  | succ n ih =>
    intro hn
    have prev := ih (by omega)
    constructor
    · simp only [mgLoop]
      rw [if_neg (by omega), if_neg (by omega)]
      exact prev.1
    · simp only [mgLoop]
      rw [if_neg (by omega), if_neg (by omega)]
      exact prev.2

/-- Claim C9: for every source with `count = w*h ≥ 1` pixels,
`mirror_gradient` writes the two bytes of source pixel `i` to
destination byte positions `2*(count-i)` and `2*(count-i)+1`
(reversal index `count - i`, one past the true mirror point), for every
`i < count`; destination pixel 0 is never written (it keeps the zero
fill), so the two extreme pixels are not swapped symmetrically. -/
theorem mirror_gradient_indexing (src : ImageBuffer512) (i : Nat)
    (_hc : 1 ≤ src.w * src.h) (hi : i < src.w * src.h) :
    (src.mirror_gradient).arena (2 * (src.w * src.h - i)) = src.arena (2 * i) ∧
    (src.mirror_gradient).arena (2 * (src.w * src.h - i) + 1) = src.arena (2 * i + 1) ∧
    (src.mirror_gradient).arena 0 = 0 ∧
    (src.mirror_gradient).arena 1 = 0 := by
  have harena : (src.mirror_gradient).arena =
      mgLoop src.arena (src.w * src.h) (fun _ => 0) (src.w * src.h) := rfl
  rw [harena]
  obtain ⟨a1, a2⟩ :=
    mgLoop_get src.arena (fun _ => 0) (src.w * src.h) (src.w * src.h) le_rfl i hi
  obtain ⟨b1, b2⟩ :=
    mgLoop_low src.arena (fun _ => 0) (src.w * src.h) (src.w * src.h) le_rfl
  exact ⟨a1, a2, b1, b2⟩

/-- Witness for C9 on the concrete 2x2 source (`count = 4`) at `i = 1`. -/
theorem mirror_gradient_indexing_witness :
    (srcEx.mirror_gradient).arena (2 * (srcEx.w * srcEx.h - 1)) = srcEx.arena (2 * 1) ∧
    (srcEx.mirror_gradient).arena (2 * (srcEx.w * srcEx.h - 1) + 1) = srcEx.arena (2 * 1 + 1) ∧
    (srcEx.mirror_gradient).arena 0 = 0 ∧
    (srcEx.mirror_gradient).arena 1 = 0 :=
  mirror_gradient_indexing srcEx 1 (by decide) (by decide)

/-! ## Periodicity of the triangle wave (claim C8) -/

/-- `wave` equals its numerator followed by the three truncating
divisions (the destructured sign folded in). -/
theorem wave_eq_waveNum (x p a : Int) :
    wave x p a = (((waveNum x p a).tdiv p).tdiv p).tdiv 4 := by
  simp only [wave, waveNum]
  by_cases h : (if x > 0 then x else p - x).tmod (2 * p) < p
  · simp only [if_pos h]
    rw [one_mul]
  · simp only [if_neg h]
    rw [neg_one_mul, neg_mul, neg_mul]

/-- The numerator of `wave` is invariant under `x ↦ x + 2*period`: the
two folding branches (`x` positive vs `period - x`) land on values with
equal products `±x1*(period-x1)`. -/
theorem waveNum_periodic (x p a : Int) (hp : 1 ≤ p) :
    waveNum (x + 2 * p) p a = waveNum x p a := by
  have h2p : (0 : Int) < 2 * p := by linarith
  by_cases hx : x > 0
  · have hx2 : x + 2 * p > 0 := by linarith
    have hmod : (x + 2 * p) % (2 * p) = x % (2 * p) := by
      conv_lhs => rw [show x + 2 * p = x + 2 * p * 1 by ring]
      rw [Int.add_mul_emod_self_left]
    simp only [waveNum, if_pos hx, if_pos hx2]
    rw [Int.tmod_eq_emod (by linarith) (by linarith),
      Int.tmod_eq_emod (by linarith) (by linarith), hmod]
  · push_neg at hx
    by_cases hx2 : x + 2 * p > 0
    · simp only [waveNum, if_neg (by omega : ¬x > 0), if_pos hx2]
      rw [Int.tmod_eq_emod (by linarith) (by linarith),
        Int.tmod_eq_emod (by linarith) (by linarith)]
      rcases lt_trichotomy x (-p) with h1 | h1 | h1
      · have e1 : (p - x) % (2 * p) = p - x - 2 * p := by
          have e : (p - x) % (2 * p) = (p - x - 2 * p) % (2 * p) := by
            conv_lhs => rw [show p - x = p - x - 2 * p + 2 * p * 1 by ring]
            rw [Int.add_mul_emod_self_left]
          rw [e, Int.emod_eq_of_lt (by linarith) (by linarith)]
        have e2 : (x + 2 * p) % (2 * p) = x + 2 * p :=
          Int.emod_eq_of_lt (by linarith) (by linarith)
        rw [e1, e2, if_pos (by linarith), if_pos (by linarith)]
        ring
      · subst h1
        rw [show -p + 2 * p = p by ring]
        rw [Int.emod_eq_of_lt (by linarith) (by linarith)]
        rw [show p - -p = 2 * p by ring, Int.emod_self]
        rw [if_neg (by linarith), if_pos (by linarith)]
        ring
      · rcases eq_or_lt_of_le hx with h0 | h0
        · subst h0
          rw [show (0 : Int) + 2 * p = 2 * p by ring, Int.emod_self]
          rw [show p - (0 : Int) = p by ring]
          rw [Int.emod_eq_of_lt (by linarith) (by linarith)]
          rw [if_pos (by linarith), if_neg (by linarith)]
          ring
        · have e1 : (p - x) % (2 * p) = p - x :=
            Int.emod_eq_of_lt (by linarith) (by linarith)
          have e2 : (x + 2 * p) % (2 * p) = x + 2 * p :=
            Int.emod_eq_of_lt (by linarith) (by linarith)
          rw [e1, e2, if_neg (by linarith), if_neg (by linarith)]
          ring
    · push_neg at hx2
      simp only [waveNum, if_neg (by omega : ¬x > 0), if_neg (by omega : ¬x + 2 * p > 0)]
      rw [Int.tmod_eq_emod (by linarith) (by linarith),
        Int.tmod_eq_emod (by linarith) (by linarith)]
      have e : (p - (x + 2 * p)) % (2 * p) = (p - x) % (2 * p) := by
        conv_lhs => rw [show p - (x + 2 * p) = p - x + 2 * p * -1 by ring]
        rw [Int.add_mul_emod_self_left]
      rw [e]

/-- The idealized `wave` (with `i32` arithmetic widened to unbounded
integers, so no wrap is reachable) is periodic with period `2*period`
over all of `Int`. -/
theorem wave_periodic (x p a : Int) (hp : 1 ≤ p) :
    wave (x + 2 * p) p a = wave x p a := by
  rw [wave_eq_waveNum, wave_eq_waveNum, waveNum_periodic x p a hp]

/-- `wrapI32` is the identity on values already in the `i32` range. -/
theorem wrapI32_eq_self (z : Int) (h1 : -2147483648 ≤ z) (h2 : z < 2147483648) :
    wrapI32 z = z := by
  unfold wrapI32
  rw [Int.emod_eq_of_lt (by linarith) (by linarith)]
  ring

/-- When `period - x`, `2*period`, `period²` and `period²*|amplitude|`
all fit in `i32`, no wrap fires and the wrapping `waveI32` agrees with
the idealized `wave`. -/
theorem waveI32_eq_wave (x p a : Int) (hp : 1 ≤ p)
    (hpx : p - x < 2147483648) (h2p : 2 * p < 2147483648)
    (hpp : p * p < 2147483648) (hppa : p * p * |a| < 2147483648) :
    waveI32 x p a = wave x p a := by
  have hw2p : wrapI32 (2 * p) = 2 * p := wrapI32_eq_self _ (by linarith) h2p
  have ht : (if x > 0 then x else wrapI32 (p - x)) = (if x > 0 then x else p - x) := by
    by_cases hx : x > 0
    · simp [hx]
    · push_neg at hx
      simp only [if_neg (not_lt.mpr hx)]
      exact wrapI32_eq_self _ (by linarith) hpx
  have ht0 : 0 ≤ (if x > 0 then x else p - x) := by
    by_cases hx : x > 0
    · simp only [if_pos hx]; linarith
    · push_neg at hx
      simp only [if_neg (not_lt.mpr hx)]; linarith
  simp only [waveI32, wave, hw2p, ht]
  set x1 := (if x > 0 then x else p - x).tmod (2 * p) with hx1def
  have hx1a : 0 ≤ x1 := by
    rw [hx1def, Int.tmod_eq_emod ht0 (by linarith)]
    exact Int.emod_nonneg _ (by linarith)
  have hx1b : x1 < 2 * p := by
    rw [hx1def, Int.tmod_eq_emod ht0 (by linarith)]
    exact Int.emod_lt_of_pos _ (by linarith)
  by_cases h : x1 < p
  · simp only [if_pos h]
    have e1 : wrapI32 ((1 : Int) * x1) = 1 * x1 :=
      wrapI32_eq_self _ (by nlinarith) (by nlinarith)
    have e2 : wrapI32 (p - x1) = p - x1 :=
      wrapI32_eq_self _ (by nlinarith) (by nlinarith)
    rw [e1, e2]
    have hprod0 : 0 ≤ 1 * x1 * (p - x1) := by nlinarith
    have hprodp : 1 * x1 * (p - x1) ≤ p * p := by nlinarith
    have e3 : wrapI32 (1 * x1 * (p - x1)) = 1 * x1 * (p - x1) :=
      wrapI32_eq_self _ (by linarith) (by linarith)
    rw [e3]
    have habs : |1 * x1 * (p - x1) * a| < 2147483648 := by
      calc |1 * x1 * (p - x1) * a| = |1 * x1 * (p - x1)| * |a| := abs_mul _ _
        _ = 1 * x1 * (p - x1) * |a| := by rw [abs_of_nonneg hprod0]
        _ ≤ p * p * |a| := mul_le_mul_of_nonneg_right hprodp (abs_nonneg a)
        _ < 2147483648 := hppa
    have hb := abs_lt.mp habs
    rw [wrapI32_eq_self _ (by linarith [hb.1]) hb.2]
  · simp only [if_neg h]
    push_neg at h
    have ew : wrapI32 (x1 - p) = x1 - p :=
      wrapI32_eq_self _ (by linarith) (by nlinarith)
    rw [ew]
    have e1 : wrapI32 ((-1 : Int) * (x1 - p)) = -1 * (x1 - p) :=
      wrapI32_eq_self _ (by nlinarith) (by nlinarith)
    have e2 : wrapI32 (p - (x1 - p)) = p - (x1 - p) :=
      wrapI32_eq_self _ (by nlinarith) (by nlinarith)
    rw [e1, e2]
    have hprod0 : -1 * (x1 - p) * (p - (x1 - p)) ≤ 0 := by nlinarith
    have hprodp : -(p * p) ≤ -1 * (x1 - p) * (p - (x1 - p)) := by nlinarith
    have e3 : wrapI32 (-1 * (x1 - p) * (p - (x1 - p))) = -1 * (x1 - p) * (p - (x1 - p)) :=
      wrapI32_eq_self _ (by nlinarith) (by nlinarith)
    rw [e3]
    have habsv : |(-1 : Int) * (x1 - p) * (p - (x1 - p))| ≤ p * p := by
      rw [abs_of_nonpos hprod0]; linarith
    have habs : |(-1 : Int) * (x1 - p) * (p - (x1 - p)) * a| < 2147483648 := by
      calc |(-1 : Int) * (x1 - p) * (p - (x1 - p)) * a|
          = |(-1 : Int) * (x1 - p) * (p - (x1 - p))| * |a| := abs_mul _ _
        _ ≤ p * p * |a| := mul_le_mul_of_nonneg_right habsv (abs_nonneg a)
        _ < 2147483648 := hppa
    have hb := abs_lt.mp habs
    rw [wrapI32_eq_self _ (by linarith [hb.1]) hb.2]

/-- Claim C8 counterexample: over the compiled `i32` arithmetic the
triangle wave is not periodic on its whole domain.  At `x = -2^31`
(`i32::MIN`), `period = 3`, `amplitude = 36` the subtraction
`period - x` wraps (debug builds panic there instead), giving
`wave(x) = -40`, while `wave(x + 2*period) = -2`. -/
theorem waveI32_not_periodic_at_min :
    waveI32 (-2147483648 + 2 * 3) 3 36 = -2 ∧
    waveI32 (-2147483648) 3 36 = -40 ∧
    waveI32 (-2147483648 + 2 * 3) 3 36 ≠ waveI32 (-2147483648) 3 36 := by
  refine ⟨by decide, by decide, by decide⟩

/-- Claim C8 (amended): the compiled triangle wave `waveI32` is
periodic with period `2*period` on every input whose computation stays
in `i32` range — for every `period ≥ 1` and every `x` and amplitude
with `period - x`, `2*period`, `period²` and `period²*|amplitude|`
below `2^31`, `wave(x + 2*period, period, amplitude) = wave(x, period,
amplitude)`.  Outside that range wrapping breaks periodicity (see the
counterexample at `x = i32::MIN`). -/
theorem waveI32_periodic_in_range (x p a : Int) (hp : 1 ≤ p)
    (hpx : p - x < 2147483648) (h2p : 2 * p < 2147483648)
    (hpp : p * p < 2147483648) (hppa : p * p * |a| < 2147483648) :
    waveI32 (x + 2 * p) p a = waveI32 x p a := by
  rw [waveI32_eq_wave (x + 2 * p) p a hp (by linarith) h2p hpp hppa,
    waveI32_eq_wave x p a hp hpx h2p hpp hppa, wave_periodic x p a hp]

/-- Witness for the amended C8 at `x = -3`, `period = 2`,
`amplitude = 40`. -/
theorem waveI32_periodic_in_range_witness :
    waveI32 (-3 + 2 * 2) 2 40 = waveI32 (-3) 2 40 :=
  waveI32_periodic_in_range (-3) 2 40 (by norm_num) (by norm_num) (by norm_num)
    (by norm_num) (by norm_num)
